import Mathlib

/-!
Shallow embedding of the `u4` Rust crate (src/src/lib.rs): a 4-bit unsigned
integer stored as an explicit array of four booleans, index 0 the
most-significant bit, index 3 the least-significant bit, with ripple-carry
addition, ripple-borrow subtraction, bitwise or/xor, rotations, conversions
to and from a native byte, and a hex text codec.
-/

/-- Rust `struct U4 { bits: [bool; 4] }` (src/src/lib.rs:10-13). -/
structure U4 where
  bits : Fin 4 → Bool

/-- Error cases of the fallible operations: `EmptyInput` is the
spec-mandated error for `from_bytes` on an empty buffer, the other two are
the hex codec's decode errors. -/
inductive U4Error where
  | emptyInput
  | oddLength
  | invalidHexDigit
  deriving DecidableEq

/-- Two `U4` values with the same four bits are equal. -/
theorem U4.bits_ext {a b : U4} (h0 : a.bits 0 = b.bits 0) (h1 : a.bits 1 = b.bits 1)
    (h2 : a.bits 2 = b.bits 2) (h3 : a.bits 3 = b.bits 3) : a = b := by
  obtain ⟨f⟩ := a
  obtain ⟨g⟩ := b
  congr 1
  funext i
  fin_cases i
  · exact h0
  · exact h1
  · exact h2
  · exact h3

instance : DecidableEq U4 := fun a b =>
  decidable_of_iff
    (a.bits 0 = b.bits 0 ∧ a.bits 1 = b.bits 1 ∧ a.bits 2 = b.bits 2 ∧ a.bits 3 = b.bits 3)
    ⟨fun h => U4.bits_ext h.1 h.2.1 h.2.2.1 h.2.2.2,
     fun h => by subst h; exact ⟨rfl, rfl, rfl, rfl⟩⟩

instance {ε α : Type} [DecidableEq ε] [DecidableEq α] : DecidableEq (Except ε α) := fun x y =>
  match x, y with
  | .ok a, .ok b =>
    if h : a = b then .isTrue (by rw [h]) else .isFalse (fun hc => h (Except.ok.inj hc))
  | .error a, .error b =>
    if h : a = b then .isTrue (by rw [h]) else .isFalse (fun hc => h (Except.error.inj hc))
  | .ok _, .error _ => .isFalse (fun hc => Except.noConfusion hc)
  | .error _, .ok _ => .isFalse (fun hc => Except.noConfusion hc)

/-- Modelled from the spec: nibble-to-character half of the hex codec
(`mod hex`, whose source file is not under src/). Values 0-9 map to the
digit characters, 10-15 to the lowercase letters a-f. -/
def hexChar (n : Nat) : Char :=
  if n < 10 then Char.ofNat (48 + n) else Char.ofNat (87 + n)

/-- Modelled from the spec: `encode_hex(bytes) -> string`, lowercase hex,
two characters per 8-bit byte, most-significant nibble first. -/
def encode_hex (bytes : List Nat) : String :=
  ⟨bytes.foldr (fun b acc => hexChar (b % 256 / 16) :: (hexChar (b % 16) :: acc)) []⟩

/-- Modelled from the spec: character-to-nibble half of the hex codec;
`none` on a non-hex-digit character. -/
def hexDigit (c : Char) : Option Nat :=
  if 48 ≤ c.toNat ∧ c.toNat ≤ 57 then some (c.toNat - 48)
  else if 97 ≤ c.toNat ∧ c.toNat ≤ 102 then some (c.toNat - 87)
  else if 65 ≤ c.toNat ∧ c.toNat ≤ 70 then some (c.toNat - 55)
  else none

/-- Modelled from the spec: the character-pair loop of
`decode_hex(string) -> Result<bytes, error>`, failing on odd-length input
(`OddLength`) or a non-hex-digit character (`InvalidHexDigit`). -/
def decodeHexPairs : List Char → Except U4Error (List Nat)
  | [] => .ok []
  | [_] => .error .oddLength
  | c1 :: c2 :: rest =>
    match hexDigit c1, hexDigit c2 with
    | some hi, some lo =>
      match decodeHexPairs rest with
      | .ok bs => .ok ((hi * 16 + lo) :: bs)
      | .error e => .error e
    | _, _ => .error .invalidHexDigit

/-- Modelled from the spec: `decode_hex` on a string decodes its character
sequence pairwise. -/
def decode_hex (s : String) : Except U4Error (List Nat) :=
  decodeHexPairs s.data

/-- A character is a lowercase hex digit: a decimal digit or one of the
lowercase letters a-f. -/
def isLowerHexDigit (c : Char) : Bool :=
  (48 ≤ c.toNat && c.toNat ≤ 57) || (97 ≤ c.toNat && c.toNat ≤ 102)

namespace U4

/-- Rust `impl BitXor for U4` (src/src/lib.rs:21-31): position-wise boolean
xor. -/
def bitxor (a b : U4) : U4 :=
  ⟨fun i => Bool.xor (a.bits i) (b.bits i)⟩

/-- Rust `impl BitOr for U4` (src/src/lib.rs:33-43): position-wise boolean
or. -/
def bitor (a b : U4) : U4 :=
  ⟨fun i => a.bits i || b.bits i⟩

/-- One iteration of the `fn add` loop body (src/src/lib.rs:51-79): given the
two operand bits and the incoming carry, return `(sum bit, outgoing carry)`,
branch for branch as in the source. -/
def addBit (a b carry : Bool) : Bool × Bool :=
  if a && b then
    if carry then (true, true) else (false, true)
  else if !a && !b then
    if carry then (true, false) else (false, false)
  else
    if carry then (false, true) else (true, false)

/-- One iteration of the `fn sub` loop body (src/src/lib.rs:95-131): given
the two operand bits and the incoming borrow (the source calls it `carry`),
return `(diff bit, outgoing borrow)`, branch for branch as in the source. -/
def subBit (a b carry : Bool) : Bool × Bool :=
  if a && b then
    if carry then (true, false) else (false, false)
  else if !a && !b then
    if carry then (true, true) else (false, false)
  else if !a && b then
    if carry then (false, true) else (true, true)
  else
    if carry then (false, false) else (true, false)

/-- The `for i in (0..4).rev()` ripple loop shared by `fn add` and `fn sub`
(src/src/lib.rs:51 and 91), unrolled: positions are processed from the
least-significant index 3 down to the most-significant index 0, the
carry/borrow flag starts out `false`, and the flag left over after index 0
is discarded. -/
def rippleLoop (step : Bool → Bool → Bool → Bool × Bool) (a b : U4) : U4 :=
  let p3 := step (a.bits 3) (b.bits 3) false
  let p2 := step (a.bits 2) (b.bits 2) p3.2
  let p1 := step (a.bits 1) (b.bits 1) p2.2
  let p0 := step (a.bits 0) (b.bits 0) p1.2
  ⟨![p0.1, p1.1, p2.1, p3.1]⟩

/-- Rust `impl Add for U4` (src/src/lib.rs:45-84). -/
def add (a b : U4) : U4 := rippleLoop addBit a b

/-- Rust `impl Sub for U4` (src/src/lib.rs:86-136). -/
def sub (a b : U4) : U4 := rippleLoop subBit a b

/-- Rust `fn to_u8` (src/src/lib.rs:147-157): sum `2^i` for each set bit at
position `BITS - i - 1`, `i` in `0..4`, unrolled in loop order. -/
def to_u8 (v : U4) : Nat :=
  (if v.bits 3 then 1 else 0) + (if v.bits 2 then 2 else 0)
    + (if v.bits 1 then 4 else 0) + (if v.bits 0 then 8 else 0)

/-- Rust `fn from_u8` (src/src/lib.rs:178-185): `bits[i] = (u & (1 << i)) != 0`
for `i` in `0..4`, then `bits.reverse()`, so the final index `i` holds bit
`3 - i` of the input byte. -/
def from_u8 (u : Nat) : U4 :=
  ⟨![u.testBit 3, u.testBit 2, u.testBit 1, u.testBit 0]⟩

/-- Rust `fn from_bytes` (src/src/lib.rs:159-166): the same bit extraction
as `from_u8`, applied to the first byte `a[0]`. The source indexes `a[0]`
unchecked; on an empty buffer that indexing fails, which the spec directs to
surface as an `EmptyInput` error, so the embedding returns `Except`. -/
def from_bytes (a : List Nat) : Except U4Error U4 :=
  match a with
  | [] => .error .emptyInput
  | b :: _ => .ok ⟨![b.testBit 3, b.testBit 2, b.testBit 1, b.testBit 0]⟩

/-- Rust `fn from_hex_str` (src/src/lib.rs:169-172): decode the string via
the hex codec, propagating its error, then build the value with
`from_bytes`. -/
def from_hex_str (s : String) : Except U4Error U4 :=
  match decode_hex s with
  | .error e => .error e
  | .ok bs => from_bytes bs

/-- Rust `fn to_hex_str` (src/src/lib.rs:174-176): encode the single
little-endian byte `to_u8(value)` through the hex codec. -/
def to_hex_str (v : U4) : String :=
  encode_hex [to_u8 v]

/-- Rust `fn rotate_left` (src/src/lib.rs:187-193): output bit `i` is input
bit `(i + n) % BITS`. -/
def rotate_left (v : U4) (n : Nat) : U4 :=
  ⟨fun i => v.bits ⟨((i : Nat) + n) % 4, Nat.mod_lt _ (by norm_num)⟩⟩

/-- Rust `fn rotate_right` (src/src/lib.rs:195-201): output bit `i` is input
bit `(i + BITS - n) % BITS`, where `i + BITS - n` is `usize` arithmetic, so
a count larger than `i + BITS` wraps around two's-complement style modulo
`2^64`. -/
def rotate_right (v : U4) (n : Nat) : U4 :=
  ⟨fun i => v.bits ⟨((i : Nat) + 4 + (2 ^ 64 - n % 2 ^ 64)) % 2 ^ 64 % 4,
    Nat.mod_lt _ (by norm_num)⟩⟩

/-- Rust `fn wrapping_add` (src/src/lib.rs:203-205): alias of `add`. -/
def wrapping_add (a b : U4) : U4 := add a b

/-- Rust `fn wrapping_sub` (src/src/lib.rs:207-209): alias of `sub`. -/
def wrapping_sub (a b : U4) : U4 := sub a b

/-- The spec's full-subtractor truth table (section 4.3), row for row:
arguments are the operand bits and the borrow-in, the result is
`(diff bit, borrow-out)`. -/
def specSubTable : Bool → Bool → Bool → Bool × Bool
  | true, true, false => (false, false)
  | true, true, true => (true, false)
  | false, false, false => (false, false)
  | false, false, true => (true, true)
  | false, true, false => (true, true)
  | false, true, true => (false, true)
  | true, false, false => (true, false)
  | true, false, true => (false, false)

/-- Every `U4` is the literal bit vector of its four bit values; this lets a
universally quantified statement over `U4` be settled by checking the
sixteen concrete bit patterns. -/
theorem forall_U4 {P : U4 → Prop}
    (h : ∀ b0 b1 b2 b3 : Bool, P ⟨![b0, b1, b2, b3]⟩) : ∀ v : U4, P v := by
  intro v
  obtain ⟨f⟩ := v
  have hf : (⟨f⟩ : U4) = ⟨![f 0, f 1, f 2, f 3]⟩ := by
    congr 1
    funext i
    fin_cases i <;> rfl
  rw [hf]
  exact h (f 0) (f 1) (f 2) (f 3)

/-- Two-variable version of `forall_U4`. -/
theorem forall2_U4 {P : U4 → U4 → Prop}
    (h : ∀ a0 a1 a2 a3 b0 b1 b2 b3 : Bool,
      P ⟨![a0, a1, a2, a3]⟩ ⟨![b0, b1, b2, b3]⟩) : ∀ a b : U4, P a b := by
  intro a
  refine forall_U4 (P := fun b => P a b) ?_
  intro b0 b1 b2 b3
  refine forall_U4 (P := fun a => P a ⟨![b0, b1, b2, b3]⟩) ?_ a
  intro a0 a1 a2 a3
  exact h a0 a1 a2 a3 b0 b1 b2 b3

/-- Rotating left by any count is rotating left by that count mod 4. -/
theorem rotate_left_mod (v : U4) (n : Nat) :
    rotate_left v n = rotate_left v (n % 4) := by
  unfold rotate_left
  congr 1
  funext i
  congr 1
  apply Fin.ext
  show ((i : Nat) + n) % 4 = ((i : Nat) + n % 4) % 4
  omega

/-- Rotating right by any count below `2^32` is rotating right by that count
mod 4: the wrapped `usize` index is congruent to `i + 4 - n` modulo 4. -/
theorem rotate_right_mod (v : U4) (n : Nat) :
    rotate_right v n = rotate_right v (n % 4) := by
  unfold rotate_right
  congr 1
  funext i
  congr 1
  apply Fin.ext
  show ((i : Nat) + 4 + (2 ^ 64 - n % 2 ^ 64)) % 2 ^ 64 % 4
      = ((i : Nat) + 4 + (2 ^ 64 - n % 4 % 2 ^ 64)) % 2 ^ 64 % 4
  have hp : (2 : Nat) ^ 64 = 18446744073709551616 := by norm_num
  rw [hp]
  omega

/-- C1: the crate's own tests pin `3 - 2 = 1` and `1 - 2 = 15`, which the
code meets, but subtraction is not `a - b mod 16` on every pair: at
`a = 10`, `b = 11` the code returns 3 while `(10 - 11) mod 16 = 15`. The
slip is the `fn sub` branch for operand bits 1 and 1 with borrow-in 1,
which clears the outgoing borrow instead of keeping it. -/
theorem sub_deviates_from_mod16_at_10_11 :
    to_u8 (sub (from_u8 10) (from_u8 11)) = 3
    ∧ (16 + 10 - 11) % 16 = 15
    ∧ to_u8 (sub (from_u8 1) (from_u8 2)) = 15
    ∧ to_u8 (sub (from_u8 3) (from_u8 2)) = 1 := by
  refine ⟨by decide, by decide, by decide, by decide⟩

/-- C2: `fn sub` walks the positions from the least-significant index 3 to
the most-significant index 0 with the borrow flag starting `false`
(captured by `rippleLoop`), and its per-position branch logic agrees with
the spec's full-subtractor truth table on all eight rows; in particular the
row for operand bits 1, 1 with borrow-in 1 yields diff bit 1 and borrow-out
0. -/
theorem sub_matches_spec_subtractor_table :
    (∀ x y c : Bool, subBit x y c = specSubTable x y c)
    ∧ (∀ a b : U4, sub a b = rippleLoop specSubTable a b)
    ∧ specSubTable true true true = (true, false) :=
  ⟨by decide, forall2_U4 (by decide), by decide⟩

/-- C3: addition is total by construction and computes `(a + b) mod 16`,
the final carry beyond the most-significant position being discarded; in
particular `12 + 12 = 8` and `3 + 3 = 6`. -/
theorem add_computes_mod16 :
    (∀ a b : U4, to_u8 (add a b) = (to_u8 a + to_u8 b) % 16)
    ∧ to_u8 (add (from_u8 12) (from_u8 12)) = 8
    ∧ to_u8 (add (from_u8 3) (from_u8 3)) = 6 :=
  ⟨forall2_U4 (by decide), by decide, by decide⟩

set_option maxRecDepth 4000 in
/-- C4: for every 8-bit input `n`, `from_u8 n` keeps exactly the low four
bits, so its value is `n % 16`, and on inputs already in `[0, 15]` the
round trip through `to_u8` is the identity. -/
theorem from_u8_keeps_low_bits :
    ∀ n : Nat, n < 256 →
      to_u8 (from_u8 n) = n % 16 ∧ (n ≤ 15 → to_u8 (from_u8 n) = n) := by
  decide

theorem from_u8_keeps_low_bits_witness :
    (203 : Nat) < 256
    ∧ to_u8 (from_u8 203) = 203 % 16
    ∧ to_u8 (from_u8 11) = 11 :=
  ⟨by decide, (from_u8_keeps_low_bits 203 (by decide)).1,
   (from_u8_keeps_low_bits 11 (by decide)).2 (by decide)⟩

/-- C5: over the whole `u32` argument range both rotations are total
functions into `U4` (they are Lean functions, and every accessed index is
reduced modulo `BITS = 4` by construction), and the index wraparound makes
a rotation by `n` equal to the rotation by `n % 4`. -/
theorem rotate_total_and_wraps_mod_bits (v : U4) (n : Nat) (_hn : n < 2 ^ 32) :
    rotate_left v n = rotate_left v (n % 4)
    ∧ rotate_right v n = rotate_right v (n % 4) :=
  ⟨rotate_left_mod v n, rotate_right_mod v n⟩

theorem rotate_total_and_wraps_mod_bits_witness :
    (7 : Nat) < 2 ^ 32
    ∧ rotate_left (from_u8 2) 7 = rotate_left (from_u8 2) (7 % 4)
    ∧ rotate_right (from_u8 2) 7 = rotate_right (from_u8 2) (7 % 4) :=
  ⟨by norm_num,
   (rotate_total_and_wraps_mod_bits (from_u8 2) 7 (by norm_num)).1,
   (rotate_total_and_wraps_mod_bits (from_u8 2) 7 (by norm_num)).2⟩

/-- C6: on a non-empty buffer `from_bytes` builds the value from the first
byte by the same bit-extraction rule as `from_u8` (so `from_bytes [11]`
equals `from_u8 11`), and it fails, with the `EmptyInput` error, exactly on
the empty buffer. -/
theorem from_bytes_first_byte_or_empty_error :
    (∀ b l, from_bytes (b :: l) = Except.ok (from_u8 b))
    ∧ from_bytes [11] = Except.ok (from_u8 11)
    ∧ (∀ a : List Nat, from_bytes a = Except.error U4Error.emptyInput ↔ a = []) := by
  refine ⟨fun b l => rfl, rfl, fun a => ?_⟩
  cases a with
  | nil => simp [from_bytes]
  | cons b l => simp [from_bytes]

/-- C7: for every value, `to_hex_str` yields a 2-character string of
lowercase hex digits and `from_hex_str` decodes it back to the value, and
`from_hex_str` propagates any decode error of the hex codec verbatim. -/
theorem hex_round_trip :
    (∀ v : U4,
      (to_hex_str v).length = 2
      ∧ ((to_hex_str v).data.all isLowerHexDigit)
      ∧ from_hex_str (to_hex_str v) = Except.ok v)
    ∧ (∀ (s : String) (e : U4Error),
        decode_hex s = Except.error e → from_hex_str s = Except.error e) := by
  constructor
  · exact forall_U4 (by decide)
  · intro s e h
    simp [from_hex_str, h]

theorem hex_round_trip_witness :
    (to_hex_str (from_u8 11)).length = 2
    ∧ from_hex_str (to_hex_str (from_u8 11)) = Except.ok (from_u8 11)
    ∧ decode_hex ("q") = Except.error U4Error.oddLength
    ∧ from_hex_str ("q") = Except.error U4Error.oddLength :=
  ⟨(hex_round_trip.1 (from_u8 11)).1,
   (hex_round_trip.1 (from_u8 11)).2.2,
   by decide,
   hex_round_trip.2 ("q") U4Error.oddLength (by decide)⟩

/-- C8: rotating by 4 in either direction is the identity on every value,
and rotation wraps around: 2 rotated left by 3 is 1. -/
theorem rotate_by_four_identity :
    (∀ v : U4, rotate_left v 4 = v ∧ rotate_right v 4 = v)
    ∧ rotate_left (from_u8 2) 3 = from_u8 1 :=
  ⟨forall_U4 (by decide), by decide⟩

/-- C9: addition, bitwise or and bitwise xor are commutative on all pairs
of values. -/
theorem add_or_xor_commutative :
    ∀ a b : U4, add a b = add b a ∧ bitor a b = bitor b a ∧ bitxor a b = bitxor b a :=
  forall2_U4 (by decide)

/-- C10: for every value and every rotation count up to 4, rotating left
then right by the same count restores the value. -/
theorem rotate_right_inverts_rotate_left :
    ∀ (v : U4) (n : Nat), n < 5 → rotate_right (rotate_left v n) n = v :=
  forall_U4 (by decide)

theorem rotate_right_inverts_rotate_left_witness :
    (3 : Nat) < 5 ∧ rotate_right (rotate_left (from_u8 9) 3) 3 = from_u8 9 :=
  ⟨by decide, rotate_right_inverts_rotate_left (from_u8 9) 3 (by decide)⟩

end U4
